import Mathlib

/-!
Verification of the RustGraph static-analysis core: a shallow embedding of
the struct/constraint analyzer (`struct_analyzer.rs`), the call-graph
builder (`call_hierarchy.rs`) and the symbol-lookup slicing
(`source_finder.rs`, `symbol_finder.rs`).

Strings are modelled as lists of characters (`Str`), matching the
character-level slicing and searching the Rust code performs on the
debug-formatted attribute payloads.  The semantic engine (rust-analyzer's
database and VFS) is an external collaborator: every value it supplies —
resolved spans, 0-based line/column pairs, file lengths, attribute token
texts — enters the embedding as explicit input data.  A Rust panic is
modelled as `Option.none` of the enclosing computation.
-/

namespace RustGraph

/-- Strings as character lists, mirroring byte-level slicing in the source. -/
abbrev Str := List Char

/-- Embed a Lean string literal as a character list. -/
def str (s : String) : Str := s.data

/-- Index of the first occurrence of `sub` in the remaining haystack,
counting from `i` (helper for `findSub?`). -/
def findSubAux (sub : Str) : Str → Nat → Option Nat
  | [], i => if sub.isPrefixOf ([] : Str) then some i else none
  | c :: t, i =>
    if sub.isPrefixOf (c :: t) then some i else findSubAux sub t (i + 1)

/-- Rust `str::find`: index of the first occurrence of `sub` in `hay`. -/
def findSub? (hay sub : Str) : Option Nat := findSubAux sub hay 0

/-- Rust `str::contains` for substring patterns. -/
def containsSub (hay sub : Str) : Bool := (findSub? hay sub).isSome

/-- Rust `str::find` with a character pattern. -/
def findChar? (p : Str) (c : Char) : Option Nat := p.findIdx? (fun x => x == c)

/-- Rust `str::trim`: drop whitespace from both ends. -/
def trim (s : Str) : Str :=
  ((s.dropWhile Char.isWhitespace).reverse.dropWhile Char.isWhitespace).reverse

/-- The delimiter scan used throughout the constraint parser:
`part.find(',').or_else(|| part.find(')'))`. -/
def findCommaOrParen (p : Str) : Option Nat :=
  (findChar? p ',').orElse (fun _ => findChar? p ')')

/-- Locate `key` in `t`, then take the text up to the next comma or closing
parenthesis, trimmed.  `none` when the key is absent or no delimiter
follows (in the source no parameter is recorded in either case). -/
def extractKeyValue (t key : Str) : Option Str :=
  match findSub? t key with
  | none => none
  | some i =>
    let part := t.drop (i + key.length)
    match findCommaOrParen part with
    | some j => some (trim (part.take j))
    | none => none

/-- Components that make up PDA seeds (`SeedComponent` in the source). -/
inductive SeedComponent where
  | Literal (bytes : List Nat)
  | StringLiteral (text : Str)
  | Variable (name : Str) (transformation : Option Str)
  | AccountKey (key : Str)
  | Expression (expr : Str)
deriving DecidableEq

/-- Information about bump seeds (`BumpInfo` in the source). -/
inductive BumpInfo where
  | Auto
  | Explicit (value : Str)
  | Field (field : Str)
deriving DecidableEq

/-- Types of constraints in Anchor (`ConstraintType` in the source). -/
inductive ConstraintType where
  | Init (payer : Str) (space : Option Str) (owner : Option Str)
  | Mut
  | Signer
  | HasOne (field : Str) (error : Option Str)
  | AssociatedToken (mint : Str) (authority : Str) (token_program : Option Str)
  | Seeds (seeds : List SeedComponent) (bump : Option BumpInfo)
  | Constraint (expression : Str) (error : Option Str)
  | Address (addr : Str)
  | Owner (owner : Str)
  | Close (target : Str)
  | Realloc (payer : Str) (zero : Bool)
deriving DecidableEq

/-- A parsed constraint (`ConstraintInfo` in the source).  The source's
`HashMap<String, String>` parameter map is modelled as an association
list in insertion order. -/
structure ConstraintInfo where
  constraint_type : ConstraintType
  parameters : List (Str × Str)
  error_code : Option Str
deriving DecidableEq

/-- PDA descriptor (`PdaInfo` in the source). -/
structure PdaInfo where
  seeds : List SeedComponent
  bump : BumpInfo
  program_id : Option Str
  canonical_bump : Option Nat
  derived_address : Option Str
deriving DecidableEq

/-- Span information for a field (`SpanInfo` in the source). -/
structure SpanInfo where
  start_line : Nat
  start_column : Nat
  end_line : Nat
  end_column : Nat
deriving DecidableEq

/-- An analyzed account field (`AccountField` in the source). -/
structure AccountField where
  name : Str
  field_type : Str
  constraints : List ConstraintInfo
  is_pda : Bool
  pda_info : Option PdaInfo
  documentation : Option Str
  span_info : SpanInfo
deriving DecidableEq

/-- Instruction parameter (`InstructionParam` in the source). -/
structure InstructionParam where
  name : Str
  param_type : Str
deriving DecidableEq

/-- An analyzed account struct (`AccountStructInfo` in the source). -/
structure AccountStructInfo where
  name : Str
  module_path : Str
  file_path : Str
  line_number : Nat
  column_number : Nat
  instruction_params : List InstructionParam
  fields : List AccountField
  derives : List Str
  visibility : Str
  documentation : Option Str
  is_anchor_accounts : Bool
deriving DecidableEq

/-- Relationship between PDAs (`PdaRelationship` in the source). -/
structure PdaRelationship where
  parent : Str
  child : Str
  relationship_type : Str
  shared_seeds : List Str
deriving DecidableEq

/-! ### ConstraintParser (`struct_analyzer.rs`, lines 866-1039) -/

/-- The `init` branch of `parse_constraint_tokens`: extract `payer = X` and
`space = X` into the parameter map, then build the `Init` constraint with
missing payer defaulted to the empty string. -/
def initConstraint (t : Str) : ConstraintInfo :=
  let params : List (Str × Str) :=
    (match extractKeyValue t (str "payer = ") with
      | some v => [(str "payer", v)]
      | none => []) ++
    (match extractKeyValue t (str "space = ") with
      | some v => [(str "space", v)]
      | none => [])
  { constraint_type := .Init ((params.lookup (str "payer")).getD [])
      (params.lookup (str "space")) none,
    parameters := params,
    error_code := none }

/-- The bare `mut` constraint record. -/
def mutConstraint : ConstraintInfo :=
  { constraint_type := .Mut, parameters := [], error_code := none }

/-- The `associated_token` branch of `parse_constraint_tokens`: `mint` and
`authority` are extracted by the same delimiter scan and default to the
empty string when absent. -/
def assocTokenConstraint (t : Str) : ConstraintInfo :=
  let mint := (extractKeyValue t (str "mint = ")).getD []
  let authority := (extractKeyValue t (str "authority = ")).getD []
  { constraint_type := .AssociatedToken mint authority none,
    parameters := [],
    error_code := none }

/-- Classification of one trimmed seed piece (body of the loop in
`parse_seeds`).  `none` models the panic of the slice
`&seed_part[2..seed_part.len() - 1]` when the piece passes the
byte-string test but has length 2 (the degenerate piece consisting of a
`b` and a quote only). -/
def classifySeed (p : Str) : Option SeedComponent :=
  if (str "b\"").isPrefixOf p && (str "\"").isSuffixOf p then
    if 3 ≤ p.length then some (.StringLiteral ((p.drop 2).dropLast))
    else none
  else if containsSub p (str ".to_le_bytes()") then
    some (.Variable ((p.splitOn '.').headD p) (some (str ".to_le_bytes().as_ref()")))
  else
    some (.Variable p none)

/-- Bracketed content of the first `seeds = [...]` clause of `t`, when both
the opener and a closing bracket are present (the lookup part of
`parse_seeds`). -/
def seedsContent? (t : Str) : Option Str :=
  match findSub? t (str "seeds = [") with
  | none => none
  | some i =>
    let rest := t.drop (i + 9)
    match findChar? rest ']' with
    | none => none
    | some j => some (rest.take j)

/-- The piece loop of `parse_seeds`: classify each trimmed piece in order,
a panic in any piece aborting the loop. -/
def classifyPieces : List Str → Option (List SeedComponent)
  | [] => some []
  | p :: rest => do
    let s ← classifySeed (trim p)
    let ss ← classifyPieces rest
    some (s :: ss)

/-- `parse_seeds`: split the bracketed seed list on commas and classify each
trimmed piece; the empty list when no bracketed clause is found.  `none`
models a panic inside the classification of some piece. -/
def parseSeeds (t : Str) : Option (List SeedComponent) :=
  match seedsContent? t with
  | none => some []
  | some c => classifyPieces (c.splitOn ',')

/-- `parse_bump`: `bump = X` followed by a delimiter gives an explicit bump;
`bump` without `= ` gives `Auto`; otherwise no bump policy. -/
def parseBump (t : Str) : Option BumpInfo :=
  if containsSub t (str "bump") then
    if containsSub t (str "bump = ") then
      match findSub? t (str "bump = ") with
      | some i =>
        let part := t.drop (i + 7)
        match findCommaOrParen part with
        | some j => some (.Explicit (trim (part.take j)))
        | none => none
      | none => none
    else some .Auto
  else none

/-- `parse_constraint_tokens`: keyword-based recognition over the formatted
token text.  The four recognized keys are checked in source order (`init`,
bare `mut`, `seeds = `, `associated_token`); the `Result` wrapper of the
source is always `Ok`, so only the seed-classification panic (modelled by
`none`) can abort the computation. -/
def parseConstraintTokens (t : Str) : Option (List ConstraintInfo) :=
  let initCs : List ConstraintInfo :=
    if containsSub t (str "init") then [initConstraint t] else []
  let mutCs : List ConstraintInfo :=
    if containsSub t (str "mut") && !containsSub t (str "mut,") then
      [mutConstraint]
    else []
  let seedCs? : Option (List ConstraintInfo) :=
    if containsSub t (str "seeds = ") then
      (parseSeeds t).map (fun sds =>
        [{ constraint_type := .Seeds sds (parseBump t),
           parameters := [], error_code := none }])
    else some []
  match seedCs? with
  | none => none
  | some seedCs =>
    let atCs : List ConstraintInfo :=
      if containsSub t (str "associated_token") then [assocTokenConstraint t]
      else []
    some (initCs ++ mutCs ++ seedCs ++ atCs)

/-! ### StructAnalyzer (`struct_analyzer.rs`, lines 186-698)

The semantic engine is external: an attribute arrives as its resolved path
segments plus the debug-formatted token-tree text (`None` when the
attribute has no token tree), and a resolved span arrives as a pair of
0-based line/column positions. -/

/-- A 0-based line/column pair as returned by the engine's line index. -/
structure LineColPos where
  line : Nat
  col : Nat
deriving DecidableEq

/-- One attribute of an item: resolved path segments and the
debug-formatted token-tree payload, as the engine reports them. -/
structure AttrIn where
  path : List Str
  tokenText? : Option Str
deriving DecidableEq

/-- Engine-side data for one struct field: name, rendered type, attributes
and the resolved span of its syntax node (`none` when `sema.source` fails). -/
structure FieldIn where
  name : Str
  fieldType : Str
  attrs : List AttrIn
  span? : Option (LineColPos × LineColPos)
deriving DecidableEq

/-- Engine-side source data for a struct: project-relative file path,
0-based position of the range start, and the `::`-joined module path. -/
structure StructSource where
  filePath : Str
  lineCol : LineColPos
  modulePath : Str
deriving DecidableEq

/-- Engine-side data for one struct to analyze. -/
structure StructIn where
  name : Str
  attrs : List AttrIn
  source? : Option StructSource
  fields : List FieldIn
deriving DecidableEq

/-- `has_accounts_derive`: some single-segment `derive` attribute whose
token text contains `Accounts`. -/
def hasAccountsDerive (attrs : List AttrIn) : Bool :=
  attrs.any (fun a =>
    a.path = [str "derive"] &&
      match a.tokenText? with
      | some tt => containsSub tt (str "Accounts")
      | none => false)

/-- `extract_instruction_params`: single-segment `instruction` attributes
whose token text contains `offer_id` yield the hardcoded parameter. -/
def extractInstructionParams (attrs : List AttrIn) : List InstructionParam :=
  attrs.foldr
    (fun a acc =>
      if a.path = [str "instruction"] then
        match a.tokenText? with
        | some tt =>
          if containsSub tt (str "offer_id") then
            ⟨str "offer_id", str "u64"⟩ :: acc
          else acc
        | none => acc
      else acc)
    []

/-- `extract_derives`: collect the `Accounts`, `Clone` and `Debug` markers
found in `derive` attribute token texts, in source order. -/
def extractDerives (attrs : List AttrIn) : List Str :=
  attrs.foldr
    (fun a acc =>
      if a.path = [str "derive"] then
        match a.tokenText? with
        | some tt =>
          (if containsSub tt (str "Accounts") then [str "Accounts"] else []) ++
          (if containsSub tt (str "Clone") then [str "Clone"] else []) ++
          (if containsSub tt (str "Debug") then [str "Debug"] else []) ++ acc
        | none => acc
      else acc)
    []

/-- Rust `str::rfind` with a character pattern. -/
def rfindChar? (p : Str) (c : Char) : Option Nat :=
  (findChar? p.reverse c).map (fun i => p.length - 1 - i)

/-- The documentation text taken from one `doc` attribute token text: the
text strictly between the first and the last double quote, trimmed
(`extract_documentation`, inner part). -/
def docPartOf (tt : Str) : Option Str :=
  match findChar? tt '"' with
  | none => none
  | some i =>
    match rfindChar? tt '"' with
    | none => none
    | some j =>
      if i < j then some (trim ((tt.drop (i + 1)).take (j - (i + 1))))
      else none

/-- `extract_documentation`: join the quoted parts of all single-segment
`doc` attributes with newlines; `none` when there are none. -/
def extractDocumentation (attrs : List AttrIn) : Option Str :=
  let parts := attrs.foldr
    (fun a acc =>
      if a.path = [str "doc"] then
        match a.tokenText? with
        | some tt =>
          match docPartOf tt with
          | some d => d :: acc
          | none => acc
        | none => acc
      else acc)
    []
  if parts = [] then none else some (List.intercalate (str "\n") parts)

/-- `ConstraintParser::parse_constraints`: run the token parser over every
single-segment `account` attribute that has a token tree, concatenating
the results.  `none` models a panic escaping from the token parser. -/
def parseConstraintsAttrs : List AttrIn → Option (List ConstraintInfo)
  | [] => some []
  | a :: rest =>
    if a.path = [str "account"] then
      match a.tokenText? with
      | some tt => do
        let cs ← parseConstraintTokens tt
        let csRest ← parseConstraintsAttrs rest
        some (cs ++ csRest)
      | none => parseConstraintsAttrs rest
    else parseConstraintsAttrs rest

/-! ### PdaAnalyzer (`struct_analyzer.rs`, lines 1041-1120) -/

/-- Whether a constraint is a `Seeds` constraint. -/
def isSeedsConstraint (c : ConstraintInfo) : Bool :=
  match c.constraint_type with
  | .Seeds _ _ => true
  | _ => false

/-- `PdaAnalyzer::extract_pda_info`: descriptor built from the first
`Seeds` constraint, with a missing bump defaulted to `Auto`; `none` when
no `Seeds` constraint is present. -/
def extractPdaInfo : List ConstraintInfo → Option PdaInfo
  | [] => none
  | c :: rest =>
    match c.constraint_type with
    | .Seeds s b => some ⟨s, b.getD .Auto, none, none, none⟩
    | _ => extractPdaInfo rest

/-- The match arm of `find_shared_seeds`: the shared textual identity of
two seed components, when they match (string literals by exact text,
variables by exact name with the transformation ignored). -/
def seedMatch (a b : SeedComponent) : Option Str :=
  match a, b with
  | .StringLiteral s1, .StringLiteral s2 => if s1 = s2 then some s1 else none
  | .Variable n1 _, .Variable n2 _ => if n1 = n2 then some n1 else none
  | _, _ => none

/-- Inner loop of `find_shared_seeds`: identities shared between one
component of the first list and each component of the second list. -/
def sharedWith (a : SeedComponent) : List SeedComponent → List Str
  | [] => []
  | b :: rest =>
    match seedMatch a b with
    | some x => x :: sharedWith a rest
    | none => sharedWith a rest

/-- `PdaAnalyzer::find_shared_seeds`: nested loops over the two seed lists,
pushing the shared identity of every matching ordered pair. -/
def findSharedSeeds : List SeedComponent → List SeedComponent → List Str
  | [], _ => []
  | a :: rest, s2 => sharedWith a s2 ++ findSharedSeeds rest s2

/-- Body of the pair loop of `analyze_relationships`: an edge exactly when
both fields carry a resolved descriptor and the shared-seed list is
non-empty. -/
def edgeOfPair (f g : AccountField) : Option PdaRelationship :=
  match f.pda_info, g.pda_info with
  | some i1, some i2 =>
    let sh := findSharedSeeds i1.seeds i2.seeds
    if sh = [] then none
    else some ⟨f.name, g.name, str "shared_seeds", sh⟩
  | _, _ => none

/-- Edges of one field paired with every later field, in order. -/
def pairEdges (f : AccountField) (rest : List AccountField) : List PdaRelationship :=
  rest.filterMap (edgeOfPair f)

/-- The double loop of `analyze_relationships` over the flattened PDA field
list: `for (i, pda1) in pda_fields.iter().enumerate()` with the inner loop
skipping the first `i + 1` fields. -/
def relLoop : List AccountField → List PdaRelationship
  | [] => []
  | f :: rest => pairEdges f rest ++ relLoop rest

/-- The PDA fields of all account structs, in struct then field order
(`pda_fields` in `analyze_relationships`). -/
def pdaFieldsOf (ss : List AccountStructInfo) : List AccountField :=
  ss.flatMap (fun s => s.fields.filter (fun f => f.is_pda))

/-- `PdaAnalyzer::analyze_relationships`. -/
def analyzeRelationships (ss : List AccountStructInfo) : List PdaRelationship :=
  relLoop (pdaFieldsOf ss)

/-! ### Field and struct analysis (`struct_analyzer.rs`, lines 309-519) -/

/-- Span construction of `extract_struct_fields`: 1-based on a resolved
span, the all-zero record otherwise. -/
def spanOf : Option (LineColPos × LineColPos) → SpanInfo
  | some (s, e) => ⟨s.line + 1, s.col + 1, e.line + 1, e.col + 1⟩
  | none => ⟨0, 0, 0, 0⟩

/-- The loop body of `extract_struct_fields` for one field: parse the
constraints, derive the PDA flag and descriptor, extract documentation
and span.  `none` models a panic escaping from the constraint parser. -/
def analyzeField (f : FieldIn) : Option AccountField := do
  let cs ← parseConstraintsAttrs f.attrs
  let isPda := cs.any isSeedsConstraint
  some
    { name := f.name,
      field_type := f.fieldType,
      constraints := cs,
      is_pda := isPda,
      pda_info := if isPda then extractPdaInfo cs else none,
      documentation := extractDocumentation f.attrs,
      span_info := spanOf f.span? }

/-- `StructAnalyzer::extract_struct_fields`: analyze each field in order,
pushing the produced records; a panic anywhere aborts the whole loop. -/
def extractStructFields : List FieldIn → Option (List AccountField)
  | [] => some []
  | f :: rest => do
    let a ← analyzeField f
    let as_ ← extractStructFields rest
    some (a :: as_)

/-- `StructAnalyzer::analyze_single_struct_inner`: `some none` when the
struct has no `Accounts` derive or no resolvable source; otherwise the
full record.  The outer `none` models a panic during the analysis. -/
def analyzeSingleStructInner (s : StructIn) : Option (Option AccountStructInfo) :=
  if !hasAccountsDerive s.attrs then some none
  else
    match s.source? with
    | none => some none
    | some src => do
      let fields ← extractStructFields s.fields
      some (some
        { name := s.name,
          module_path := src.modulePath,
          file_path := src.filePath,
          line_number := src.lineCol.line + 1,
          column_number := src.lineCol.col + 1,
          instruction_params := extractInstructionParams s.attrs,
          fields := fields,
          derives := extractDerives s.attrs,
          visibility := str "pub",
          documentation := extractDocumentation s.attrs,
          is_anchor_accounts := true })

/-- `StructAnalyzer::analyze_single_struct`: the `catch_unwind` boundary —
a panic of the inner analysis is logged and becomes `None` (the struct is
skipped); otherwise the inner result passes through. -/
def analyzeSingleStruct (s : StructIn) : Option AccountStructInfo :=
  match analyzeSingleStructInner s with
  | none => none
  | some r => r

/-- `StructAnalyzer::analyze_account_structs`: collect the records of the
structs whose analysis produced one. -/
def analyzeAccountStructs (ss : List StructIn) : List AccountStructInfo :=
  ss.filterMap analyzeSingleStruct

/-! ### CallGraphBuilder (`call_hierarchy.rs`) -/

/-- Function record (`FunctionInfo` in `call_hierarchy.rs`). -/
structure FunctionInfo where
  name : Str
  file_path : Str
  line : Nat
  column : Nat
deriving DecidableEq

/-- A caller→callee edge (`CallRelation` in `call_hierarchy.rs`). -/
structure CallRelation where
  caller : FunctionInfo
  callee : FunctionInfo
  call_site_line : Nat
  call_site_column : Nat
deriving DecidableEq

/-- One call-site range reported by the engine for a call item: the length
of the file it lies in, its start offset, and the 0-based line/column the
line index gives for that start. -/
structure RangeIn where
  fileLen : Nat
  start : Nat
  lineCol : LineColPos
deriving DecidableEq

/-- One outgoing-call target as the engine reports it (`CallItem`): name,
file path, the callee file's length, the start offset of the target's
focus-or-full range, the 0-based line/column of that start, and the list
of call-site ranges. -/
structure CallItemIn where
  targetName : Str
  targetFilePath : Str
  targetFileLen : Nat
  targetStart : Nat
  targetLineCol : LineColPos
  ranges : List RangeIn
deriving DecidableEq

/-- `extract_function_info` (`call_hierarchy.rs`, lines 124-160): a record
with 1-based line and column when the engine resolves a source span,
nothing otherwise. -/
def extractFunctionInfo (name : Str) (src? : Option (Str × LineColPos)) :
    Option FunctionInfo :=
  match src? with
  | some (fp, lc) => some ⟨name, fp, lc.line + 1, lc.col + 1⟩
  | none => none

/-- `create_call_relation_from_item` (`call_hierarchy.rs`, lines 226-289):
discard the edge when the callee start offset exceeds its file length;
take the call-site position from the first reported range (discarding the
edge if that range's start exceeds its own file length), falling back to
the callee's own position when no range is reported. -/
def createCallRelationFromItem (caller : FunctionInfo) (item : CallItemIn) :
    Option CallRelation :=
  if item.targetFileLen < item.targetStart then none
  else
    let callee : FunctionInfo :=
      ⟨item.targetName, item.targetFilePath,
        item.targetLineCol.line + 1, item.targetLineCol.col + 1⟩
    match item.ranges.head? with
    | some r =>
      if r.fileLen < r.start then none
      else some ⟨caller, callee, r.lineCol.line + 1, r.lineCol.col + 1⟩
    | none =>
      some ⟨caller, callee, item.targetLineCol.line + 1, item.targetLineCol.col + 1⟩

/-- The per-caller loop of `analyze_call_relationships`: each outgoing call
item independently yields an edge or is discarded. -/
def callEdgesForCaller (caller : FunctionInfo) (items : List CallItemIn) :
    List CallRelation :=
  items.filterMap (createCallRelationFromItem caller)

/-! ### SymbolSearchFacade slicing (`source_finder.rs`, `symbol_finder.rs`) -/

/-- Strip one trailing carriage return, as Rust `str::lines` does per line. -/
def dropCR (l : Str) : Str :=
  if l.getLast? = some '\r' then l.dropLast else l

/-- Rust `str::lines`: split on newlines, drop the empty fragment after a
trailing newline, strip one trailing carriage return per line. -/
def rustLines (s : Str) : List Str :=
  if s = [] then []
  else
    let parts := s.splitOn '\n'
    let parts := if s.getLast? = some '\n' then parts.dropLast else parts
    parts.map dropCR

/-- The line-locating loop of `extract_symbol_source`
(`source_finder.rs`, lines 151-168): walk the lines keeping a running
offset; remember the last line containing the start offset; stop at the
first line containing the end offset, reporting the pair
`(start_line, end_line)` with `end_line` left at `0` when never found. -/
def lineScan (startOff endOff : Nat) :
    List Str → Nat → Nat → Nat → Nat × Nat
  | [], _, _, sl => (sl, 0)
  | l :: rest, idx, cur, sl =>
    let lineEnd := cur + l.length
    let sl2 := if cur ≤ startOff ∧ startOff ≤ lineEnd then idx else sl
    if cur ≤ endOff ∧ endOff ≤ lineEnd then (sl2, idx + 1)
    else lineScan startOff endOff rest (idx + 1) (lineEnd + 1) sl2

/-- `SourceFinder::extract_symbol_source` (`source_finder.rs`, lines
131-179): clamp the byte range to the text length, return the empty slice
with zero lines when the clamped range degenerates, otherwise return the
complete lines covering the range (1-based bounds), falling back to the
exact byte slice when the line calculation fails.  The outer `none`
models the panic of the line slice `&lines[start_line..end_line]` when
`start_line > end_line`. -/
def extractSymbolSource (source_text : Str) (full_range : Nat × Nat) :
    Option (Str × Nat × Nat) :=
  let startOffset := min full_range.1 source_text.length
  let endOffset := min full_range.2 source_text.length
  if endOffset ≤ startOffset then some ([], 0, 0)
  else
    let symbolText := (source_text.drop startOffset).take (endOffset - startOffset)
    let lines := rustLines source_text
    let (startLine, endLine) := lineScan startOffset endOffset lines 0 0 0
    if startLine < lines.length ∧ endLine ≤ lines.length then
      if startLine ≤ endLine then
        some (List.intercalate (str "\n") ((lines.drop startLine).take (endLine - startLine)),
          startLine + 1, endLine)
      else none
    else some (symbolText, 1, 1)

/-- Repeated removal of a leading pattern, as Rust `trim_start_matches`. -/
def stripAllPre (pre : Str) (l : Str) : Str :=
  if h : pre ≠ [] ∧ pre.isPrefixOf l = true then
    stripAllPre pre (l.drop pre.length)
  else l
termination_by l.length
decreasing_by
  have hpre : pre <+: l := List.isPrefixOf_iff_prefix.mp h.2
  have hle : pre.length ≤ l.length := hpre.length_le
  have hpos : 0 < pre.length := List.length_pos.mpr h.1
  simp only [List.length_drop]
  omega

/-- The backward doc-comment scan of `extract_simple_docs`
(`symbol_finder.rs`, lines 194-206): walk line indices downward from the
slice's start line, prepending stripped `///` and `//!` lines, skipping
blank lines, stopping at the first other non-blank line. -/
def docScan (lines : List Str) : Nat → List Str → List Str
  | 0, acc => acc
  | i + 1, acc =>
    match lines[i]? with
    | none => docScan lines i acc
    | some line =>
      let t := trim line
      if (str "///").isPrefixOf t then
        docScan lines i (trim (stripAllPre (str "///") t) :: acc)
      else if (str "//!").isPrefixOf t then
        docScan lines i (trim (stripAllPre (str "//!") t) :: acc)
      else if t ≠ [] then acc
      else docScan lines i acc

/-- `InternalSymbolFinder::extract_simple_docs`: collect the doc-comment
lines immediately preceding the line holding `startOff`. -/
def extractSimpleDocs (file_text : Str) (startOff : Nat) : Option Str :=
  let lines := rustLines file_text
  let startLine := (file_text.take startOff).count '\n'
  let docs := docScan lines startLine []
  if docs = [] then none else some (List.intercalate (str "\n") docs)

/-- Decimal rendering of a Nat, for the error message text. -/
def natStr (n : Nat) : Str := (Nat.repr n).data

/-- `InternalSymbolFinder::extract_symbol_content` (`symbol_finder.rs`,
lines 147-174): reject the range with an error when the start reaches the
file length, the end exceeds it, or the start exceeds the end; otherwise
slice the text and recover the documentation. -/
def extractSymbolContent (file_text : Str) (full_range : Nat × Nat) :
    Except Str (Str × Option Str) :=
  let startOffset := full_range.1
  let endOffset := full_range.2
  if file_text.length ≤ startOffset ∨ file_text.length < endOffset ∨
      endOffset < startOffset then
    .error (str "无效的文本范围: " ++ natStr startOffset ++ str ".." ++ natStr endOffset)
  else
    .ok ((file_text.drop startOffset).take (endOffset - startOffset),
      extractSimpleDocs file_text startOffset)

/-- Ordered pairs `(l[i], l[j])` with `i < j`, each index pair exactly
once — the iteration space of the pair loop in `analyze_relationships`. -/
def offDiagPairs : List α → List (α × α)
  | [] => []
  | x :: xs => (xs.map (fun y => (x, y))) ++ offDiagPairs xs

/-! ### Helper lemmas -/

/-- An out-of-range callee start offset discards the call item. -/
theorem createCallRelation_none_of_range (caller : FunctionInfo) (item : CallItemIn)
    (h : item.targetFileLen < item.targetStart) :
    createCallRelationFromItem caller item = none := by
  simp [createCallRelationFromItem, if_pos h]

/-- A caught panic of the inner analysis yields no record. -/
theorem analyzeSingleStruct_none_of_inner (s : StructIn)
    (h : analyzeSingleStructInner s = none) : analyzeSingleStruct s = none := by
  simp [analyzeSingleStruct, h]

/-- A constraint whose type is not `Seeds` is skipped by `extractPdaInfo`. -/
theorem extractPdaInfo_cons_of_not_seeds (c : ConstraintInfo) (rest : List ConstraintInfo)
    (h : isSeedsConstraint c = false) :
    extractPdaInfo (c :: rest) = extractPdaInfo rest := by
  cases hc : c.constraint_type
  case Seeds s b => simp [isSeedsConstraint, hc] at h
  all_goals rw [extractPdaInfo, hc]

/-- A `Seeds` constraint at the head is taken by `extractPdaInfo`, the bump
defaulted to `Auto`. -/
theorem extractPdaInfo_cons_of_seeds (c : ConstraintInfo) (rest : List ConstraintInfo)
    (s : List SeedComponent) (b : Option BumpInfo) (h : c.constraint_type = .Seeds s b) :
    extractPdaInfo (c :: rest) = some ⟨s, b.getD .Auto, none, none, none⟩ := by
  unfold extractPdaInfo
  rw [h]

/-! ### Claim theorems -/

/-- Claim C4: the call-graph builder never emits an edge whose callee start
offset exceeds the callee file's length, and an out-of-range call target
discards exactly that edge — the remaining edges of the same caller are
the ones produced without the bad item. -/
theorem c4_call_edge_range :
    (∀ (caller : FunctionInfo) (item : CallItemIn) (rel : CallRelation),
      createCallRelationFromItem caller item = some rel →
        item.targetStart ≤ item.targetFileLen) ∧
    (∀ (caller : FunctionInfo) (xs ys : List CallItemIn) (item : CallItemIn),
      item.targetFileLen < item.targetStart →
        callEdgesForCaller caller (xs ++ item :: ys) =
          callEdgesForCaller caller (xs ++ ys)) := by
  constructor
  · intro caller item rel h
    by_cases hc : item.targetFileLen < item.targetStart
    · rw [createCallRelation_none_of_range caller item hc] at h
      exact absurd h (by simp)
    · omega
  · intro caller xs ys item h
    simp [callEdgesForCaller, List.filterMap_append, List.filterMap_cons,
      createCallRelation_none_of_range caller item h]

/-- Caller of the witness: a function record with an in-range call item. -/
def c4Caller : FunctionInfo := ⟨str "complex_operation", str "src/lib.rs", 3, 1⟩

/-- An in-range call item: callee start offset 42 in a file of length 100. -/
def c4Item : CallItemIn :=
  ⟨str "calculate_square", str "src/calculator.rs", 100, 42, ⟨6, 3⟩, [⟨50, 10, ⟨4, 8⟩⟩]⟩

/-- The edge the in-range item produces. -/
def c4Rel : CallRelation :=
  ⟨c4Caller, ⟨str "calculate_square", str "src/calculator.rs", 7, 4⟩, 5, 9⟩

/-- An out-of-range call item: callee start offset 200 in a file of length 100. -/
def c4BadItem : CallItemIn :=
  ⟨str "ghost", str "src/calculator.rs", 100, 200, ⟨0, 0⟩, []⟩

/-- Witness for C4 at concrete inputs. -/
theorem c4_call_edge_range_witness :
    c4Item.targetStart ≤ c4Item.targetFileLen ∧
    callEdgesForCaller c4Caller ([c4Item] ++ c4BadItem :: []) =
      callEdgesForCaller c4Caller ([c4Item] ++ []) :=
  ⟨c4_call_edge_range.1 c4Caller c4Item c4Rel (by decide),
   c4_call_edge_range.2 c4Caller [c4Item] [] c4BadItem (by decide)⟩

/-- Claim C5: a failure (panic) while analyzing one struct is caught at the
single-struct boundary — that struct yields no record, and the batch
output over any surrounding structs equals the output with the failing
struct removed; the batch function is total, so the run never aborts on a
per-item fault. -/
theorem c5_per_struct_isolation :
    (∀ s : StructIn, analyzeSingleStructInner s = none →
      analyzeSingleStruct s = none) ∧
    (∀ (xs ys : List StructIn) (s : StructIn), analyzeSingleStructInner s = none →
      analyzeAccountStructs (xs ++ s :: ys) = analyzeAccountStructs (xs ++ ys)) := by
  constructor
  · exact analyzeSingleStruct_none_of_inner
  · intro xs ys s h
    simp [analyzeAccountStructs, List.filterMap_append, List.filterMap_cons,
      analyzeSingleStruct_none_of_inner s h]

/-- A struct whose field constraint payload holds the degenerate seed piece
that makes the seed slicer panic. -/
def c5PanicStruct : StructIn :=
  ⟨str "Broken",
   [⟨[str "derive"], some (str "(Accounts)")⟩],
   some ⟨str "src/state.rs", ⟨9, 0⟩, str "state"⟩,
   [⟨str "bad_field", str "Account", [⟨[str "account"], some (str "seeds = [b\"]")⟩], none⟩]⟩

/-- A well-behaved struct analyzed alongside the panicking one. -/
def c5GoodStruct : StructIn :=
  ⟨str "Fine",
   [⟨[str "derive"], some (str "(Accounts)")⟩],
   some ⟨str "src/state.rs", ⟨1, 0⟩, str "state"⟩,
   [⟨str "owner_field", str "Signer", [⟨[str "account"], some (str "mut )")⟩],
     some (⟨2, 4⟩, ⟨2, 20⟩)⟩]⟩

/-- Witness for C5: the panicking struct produces no record and its
presence does not change the record of the well-behaved struct. -/
theorem c5_per_struct_isolation_witness :
    analyzeSingleStruct c5PanicStruct = none ∧
    analyzeAccountStructs ([c5GoodStruct] ++ c5PanicStruct :: []) =
      analyzeAccountStructs ([c5GoodStruct] ++ []) :=
  ⟨c5_per_struct_isolation.1 c5PanicStruct (by decide),
   c5_per_struct_isolation.2 [c5GoodStruct] [] c5PanicStruct (by decide)⟩

/-- Claim C7: `extractPdaInfo` returns `none` exactly when the constraint
list holds no `Seeds` constraint, and otherwise builds the descriptor
from the first `Seeds` constraint (later ones ignored) with a missing
bump policy defaulted to `Auto`. -/
theorem c7_first_seeds_descriptor :
    (∀ cs : List ConstraintInfo,
      (extractPdaInfo cs = none ↔ ∀ c ∈ cs, isSeedsConstraint c = false)) ∧
    (∀ (l1 l2 : List ConstraintInfo) (c : ConstraintInfo)
      (s : List SeedComponent) (b : Option BumpInfo),
      (∀ c2 ∈ l1, isSeedsConstraint c2 = false) → c.constraint_type = .Seeds s b →
        extractPdaInfo (l1 ++ c :: l2) = some ⟨s, b.getD .Auto, none, none, none⟩) := by
  constructor
  · intro cs
    induction cs with
    | nil => simp [extractPdaInfo]
    | cons c rest ih =>
      by_cases hc : isSeedsConstraint c = true
      · unfold isSeedsConstraint at hc
        constructor
        · intro h
          cases hs : c.constraint_type <;> rw [hs] at hc <;> simp_all
          rw [extractPdaInfo_cons_of_seeds c rest _ _ hs] at h
          exact absurd h (by simp)
        · intro h
          have := h c (List.mem_cons_self c rest)
          unfold isSeedsConstraint at this
          rw [this] at hc
          exact absurd hc (by simp)
      · rw [extractPdaInfo_cons_of_not_seeds c rest (by simpa using hc)]
        rw [ih]
        constructor
        · intro h c2 hc2
          rcases List.mem_cons.mp hc2 with h1 | h1
          · subst h1; simpa using hc
          · exact h c2 h1
        · intro h c2 hc2
          exact h c2 (List.mem_cons_of_mem c hc2)
  · intro l1 l2 c s b hl1 hc
    induction l1 with
    | nil => simpa using extractPdaInfo_cons_of_seeds c l2 s b hc
    | cons a rest ih =>
      have ha : isSeedsConstraint a = false := hl1 a (List.mem_cons_self a rest)
      rw [List.cons_append, extractPdaInfo_cons_of_not_seeds a _ ha]
      exact ih (fun c2 h2 => hl1 c2 (List.mem_cons_of_mem a h2))

/-- A non-seeds constraint preceding two seeds constraints. -/
def c7MutC : ConstraintInfo := ⟨.Mut, [], none⟩

/-- First seeds constraint of the witness list, with no bump policy. -/
def c7SeedsC1 : ConstraintInfo :=
  ⟨.Seeds [.StringLiteral (str "global")] none, [], none⟩

/-- Second (ignored) seeds constraint of the witness list. -/
def c7SeedsC2 : ConstraintInfo :=
  ⟨.Seeds [.Variable (str "user") none] (some (.Explicit (str "7"))), [], none⟩

/-- Witness for C7: the descriptor comes from the first seeds constraint,
bump defaulted to `Auto`, the later seeds constraint ignored. -/
theorem c7_first_seeds_descriptor_witness :
    extractPdaInfo ([c7MutC] ++ c7SeedsC1 :: [c7SeedsC2]) =
      some ⟨[.StringLiteral (str "global")], .Auto, none, none, none⟩ :=
  c7_first_seeds_descriptor.2 [c7MutC] [c7SeedsC2] c7SeedsC1
    [.StringLiteral (str "global")] none (by decide) (by decide)

/-- The span of a produced field record is the converted input span. -/
theorem analyzeField_span (f : FieldIn) (a : AccountField)
    (h : analyzeField f = some a) : a.span_info = spanOf f.span? := by
  unfold analyzeField at h
  cases hc : parseConstraintsAttrs f.attrs with
  | none => rw [hc] at h; simp at h
  | some cs =>
    rw [hc] at h
    simp at h
    rw [← h]

/-- Every field record produced by `extractStructFields` carries either a
fully 1-based span or the all-zero fallback span. -/
theorem extractStructFields_span (fs : List FieldIn) (l : List AccountField)
    (h : extractStructFields fs = some l) :
    ∀ f ∈ l,
      (1 ≤ f.span_info.start_line ∧ 1 ≤ f.span_info.start_column ∧
        1 ≤ f.span_info.end_line ∧ 1 ≤ f.span_info.end_column) ∨
      f.span_info = ⟨0, 0, 0, 0⟩ := by
  induction fs generalizing l with
  | nil =>
    simp [extractStructFields] at h
    subst h
    simp
  | cons f rest ih =>
    unfold extractStructFields at h
    cases ha : analyzeField f with
    | none => rw [ha] at h; simp at h
    | some a =>
      cases hr : extractStructFields rest with
      | none => rw [ha, hr] at h; simp at h
      | some as_ =>
        rw [ha, hr] at h
        simp at h
        subst h
        intro g hg
        rcases List.mem_cons.mp hg with hga | hga
        · subst hga
          rw [analyzeField_span f g ha]
          cases hs : f.span? with
          | none => right; rfl
          | some p => left; obtain ⟨ps, pe⟩ := p; simp [spanOf]
        · exact ih as_ hr g hga

/-- Inversion of a successful single-struct analysis: the record is built
from a resolved source and successfully analyzed fields. -/
theorem analyzeSingleStruct_inv (s : StructIn) (rec : AccountStructInfo)
    (h : analyzeSingleStruct s = some rec) :
    ∃ src fields, s.source? = some src ∧ extractStructFields s.fields = some fields ∧
      rec = ⟨s.name, src.modulePath, src.filePath, src.lineCol.line + 1,
        src.lineCol.col + 1, extractInstructionParams s.attrs, fields,
        extractDerives s.attrs, str "pub", extractDocumentation s.attrs, true⟩ := by
  unfold analyzeSingleStruct at h
  cases hi : analyzeSingleStructInner s with
  | none => rw [hi] at h; simp at h
  | some r =>
    rw [hi] at h
    unfold analyzeSingleStructInner at hi
    by_cases hd : hasAccountsDerive s.attrs
    · cases hsrc : s.source? with
      | none => simp [hd, hsrc] at hi; subst hi; simp at h
      | some src =>
        cases hf : extractStructFields s.fields with
        | none => simp [hd, hsrc, hf] at hi
        | some fields =>
          simp [hd, hsrc, hf] at hi
          subst hi
          simp at h
          exact ⟨src, fields, rfl, rfl, h.symm⟩
    · simp [hd] at hi
      subst hi
      simp at h

/-- Claim C1 (amended): every produced `FunctionInfo` has 1-based line and
column, every produced `AccountStructInfo` has 1-based line and column,
and every produced field record carries either a fully 1-based span or —
when the field's source span cannot be resolved — the all-zero fallback
span `(0,0,0,0)`, which is not 1-based. -/
theorem c1_record_positions :
    (∀ (name : Str) (src? : Option (Str × LineColPos)) (fi : FunctionInfo),
      extractFunctionInfo name src? = some fi → 1 ≤ fi.line ∧ 1 ≤ fi.column) ∧
    (∀ (s : StructIn) (rec : AccountStructInfo), analyzeSingleStruct s = some rec →
      1 ≤ rec.line_number ∧ 1 ≤ rec.column_number ∧
      ∀ f ∈ rec.fields,
        (1 ≤ f.span_info.start_line ∧ 1 ≤ f.span_info.start_column ∧
          1 ≤ f.span_info.end_line ∧ 1 ≤ f.span_info.end_column) ∨
        f.span_info = ⟨0, 0, 0, 0⟩) := by
  constructor
  · intro name src? fi h
    cases src? with
    | none => simp [extractFunctionInfo] at h
    | some p =>
      obtain ⟨fp, lc⟩ := p
      simp [extractFunctionInfo] at h
      rw [← h]
      simp
  · intro s rec h
    obtain ⟨src, fields, hsrc, hf, hrec⟩ := analyzeSingleStruct_inv s rec h
    subst hrec
    refine ⟨by simp, by simp, ?_⟩
    exact extractStructFields_span s.fields fields hf

/-- A struct whose only field has no resolvable source span. -/
def c1CexStruct : StructIn :=
  ⟨str "NoSpan",
   [⟨[str "derive"], some (str "(Accounts)")⟩],
   some ⟨str "src/lib.rs", ⟨4, 0⟩, str "my_mod"⟩,
   [⟨str "vault", str "Pubkey", [], none⟩]⟩

/-- The record the analysis produces for `c1CexStruct`. -/
def c1CexRec : AccountStructInfo :=
  ⟨str "NoSpan", str "my_mod", str "src/lib.rs", 5, 1, [],
   [⟨str "vault", str "Pubkey", [], false, none, none, ⟨0, 0, 0, 0⟩⟩],
   [str "Accounts"], str "pub", none, true⟩

/-- Counterexample to claim C1 as stated: a produced field record whose
source span could not be resolved carries the all-zero span, so its line
and column are 0, not ≥ 1. -/
theorem c1_counterexample :
    analyzeSingleStruct c1CexStruct = some c1CexRec ∧
    ∃ f ∈ c1CexRec.fields,
      ¬(1 ≤ f.span_info.start_line ∧ 1 ≤ f.span_info.start_column ∧
        1 ≤ f.span_info.end_line ∧ 1 ≤ f.span_info.end_column) := by
  decide

/-- Function record of the C1 witness. -/
def c1WFn : FunctionInfo := ⟨str "add_numbers", str "src/lib.rs", 3, 1⟩

/-- Struct of the C1 witness, with a fully resolved field span. -/
def c1WStruct : StructIn :=
  ⟨str "Vault",
   [⟨[str "derive"], some (str "(Accounts, Debug)")⟩],
   some ⟨str "src/vault.rs", ⟨10, 4⟩, str "vault"⟩,
   [⟨str "payer_acc", str "Signer", [], some (⟨12, 4⟩, ⟨13, 8⟩)⟩]⟩

/-- The record the analysis produces for `c1WStruct`. -/
def c1WRec : AccountStructInfo :=
  ⟨str "Vault", str "vault", str "src/vault.rs", 11, 5, [],
   [⟨str "payer_acc", str "Signer", [], false, none, none, ⟨13, 5, 14, 9⟩⟩],
   [str "Accounts", str "Debug"], str "pub", none, true⟩

/-- Witness for the amended C1 at concrete inputs. -/
theorem c1_record_positions_witness :
    (1 ≤ c1WFn.line ∧ 1 ≤ c1WFn.column) ∧
    (1 ≤ c1WRec.line_number ∧ 1 ≤ c1WRec.column_number ∧
      ∀ f ∈ c1WRec.fields,
        (1 ≤ f.span_info.start_line ∧ 1 ≤ f.span_info.start_column ∧
          1 ≤ f.span_info.end_line ∧ 1 ≤ f.span_info.end_column) ∨
        f.span_info = ⟨0, 0, 0, 0⟩) :=
  ⟨c1_record_positions.1 (str "add_numbers") (some (str "src/lib.rs", ⟨2, 0⟩)) c1WFn
      (by decide),
   c1_record_positions.2 c1WStruct c1WRec (by decide)⟩

/-- The pair loop of `analyze_relationships` is the filter-map of the edge
builder over the ordered index pairs `i < j`. -/
theorem relLoop_eq_offDiag (l : List AccountField) :
    relLoop l = (offDiagPairs l).filterMap (fun p => edgeOfPair p.1 p.2) := by
  induction l with
  | nil => rfl
  | cons f rest ih =>
    simp only [relLoop, offDiagPairs, List.filterMap_append, List.filterMap_map, ih,
      pairEdges]
    rfl

/-- Both components of an off-diagonal pair are members of the list. -/
theorem mem_offDiagPairs {α : Type _} (p : α × α) (l : List α)
    (h : p ∈ offDiagPairs l) : p.1 ∈ l ∧ p.2 ∈ l := by
  induction l with
  | nil => simp [offDiagPairs] at h
  | cons x xs ih =>
    simp only [offDiagPairs, List.mem_append, List.mem_map] at h
    rcases h with ⟨y, hy, hp⟩ | h
    · rw [← hp]
      exact ⟨List.mem_cons_self x xs, List.mem_cons_of_mem x hy⟩
    · have := ih h
      exact ⟨List.mem_cons_of_mem x this.1, List.mem_cons_of_mem x this.2⟩

/-- An emitted edge's endpoints are the two fields' names. -/
theorem edgeOfPair_names (f g : AccountField) (e : PdaRelationship)
    (h : edgeOfPair f g = some e) : e.parent = f.name ∧ e.child = g.name := by
  cases h1 : f.pda_info with
  | none => simp [edgeOfPair, h1] at h
  | some i1 =>
    cases h2 : g.pda_info with
    | none => simp [edgeOfPair, h1, h2] at h
    | some i2 =>
      simp only [edgeOfPair, h1, h2] at h
      split at h
      · simp at h
      · rw [Option.some_inj] at h
        rw [← h]
        exact ⟨rfl, rfl⟩

/-- Membership in the inner shared-seed loop. -/
theorem mem_sharedWith (a : SeedComponent) (l : List SeedComponent) (x : Str) :
    x ∈ sharedWith a l ↔ ∃ b ∈ l, seedMatch a b = some x := by
  induction l with
  | nil => simp [sharedWith]
  | cons b rest ih =>
    cases hm : seedMatch a b with
    | none =>
      simp only [sharedWith, hm, ih]
      constructor
      · rintro ⟨c, hc, hmc⟩
        exact ⟨c, List.mem_cons_of_mem b hc, hmc⟩
      · rintro ⟨c, hc, hmc⟩
        rcases List.mem_cons.mp hc with h1 | h1
        · subst h1; rw [hm] at hmc; exact absurd hmc (by simp)
        · exact ⟨c, h1, hmc⟩
    | some y =>
      simp only [sharedWith, hm, List.mem_cons, ih]
      constructor
      · rintro (h1 | ⟨c, hc, hmc⟩)
        · exact ⟨b, Or.inl rfl, by rw [hm, h1]⟩
        · exact ⟨c, Or.inr hc, hmc⟩
      · rintro ⟨c, hc, hmc⟩
        rcases hc with h1 | h1
        · subst h1
          rw [hm] at hmc
          left
          exact (Option.some_inj.mp hmc).symm
        · right
          exact ⟨c, h1, hmc⟩

/-- Membership in the shared-seed list of two seed lists. -/
theorem mem_findSharedSeeds (s1 s2 : List SeedComponent) (x : Str) :
    x ∈ findSharedSeeds s1 s2 ↔ ∃ a ∈ s1, ∃ b ∈ s2, seedMatch a b = some x := by
  induction s1 with
  | nil => simp [findSharedSeeds]
  | cons a rest ih =>
    simp only [findSharedSeeds, List.mem_append, mem_sharedWith, ih]
    constructor
    · rintro (⟨b, hb, hm⟩ | ⟨c, hc, b, hb, hm⟩)
      · exact ⟨a, List.mem_cons_self a rest, b, hb, hm⟩
      · exact ⟨c, List.mem_cons_of_mem a hc, b, hb, hm⟩
    · rintro ⟨c, hc, b, hb, hm⟩
      rcases List.mem_cons.mp hc with h1 | h1
      · subst h1; exact Or.inl ⟨b, hb, hm⟩
      · exact Or.inr ⟨c, h1, b, hb, hm⟩

/-- The component matcher is symmetric. -/
theorem seedMatch_comm (a b : SeedComponent) : seedMatch a b = seedMatch b a := by
  cases a <;> cases b <;> simp only [seedMatch]
  case StringLiteral.StringLiteral s1 s2 =>
    by_cases h : s1 = s2
    · subst h; rfl
    · rw [if_neg h, if_neg (fun h2 => h h2.symm)]
  case Variable.Variable n1 t1 n2 t2 =>
    by_cases h : n1 = n2
    · subst h; rfl
    · rw [if_neg h, if_neg (fun h2 => h h2.symm)]

/-- Claim C2 (amended): every emitted relationship edge names the two PDA
fields of the related pair — its endpoints are field names drawn from the
flattened PDA field list, not struct names. -/
theorem c2_edge_endpoints :
    ∀ ss : List AccountStructInfo, ∀ e ∈ analyzeRelationships ss,
      (∃ f ∈ pdaFieldsOf ss, e.parent = f.name) ∧
      ∃ g ∈ pdaFieldsOf ss, e.child = g.name := by
  intro ss e he
  rw [analyzeRelationships, relLoop_eq_offDiag, List.mem_filterMap] at he
  obtain ⟨p, hp, hedge⟩ := he
  have hmem := mem_offDiagPairs p (pdaFieldsOf ss) hp
  have hnames := edgeOfPair_names p.1 p.2 e hedge
  exact ⟨⟨p.1, hmem.1, hnames.1⟩, ⟨p.2, hmem.2, hnames.2⟩⟩

/-- First struct of the C2 scenario: struct `StructA` with PDA field
`vault_a` seeded by the string literal `pool`. -/
def c2StructA : AccountStructInfo :=
  ⟨str "StructA", str "m", str "a.rs", 1, 1, [],
   [⟨str "vault_a", str "Account",
     [⟨.Seeds [.StringLiteral (str "pool")] none, [], none⟩], true,
     some ⟨[.StringLiteral (str "pool")], .Auto, none, none, none⟩, none, ⟨1, 1, 1, 1⟩⟩],
   [str "Accounts"], str "pub", none, true⟩

/-- Second struct of the C2 scenario: struct `StructB` with PDA field
`vault_b` sharing the `pool` seed. -/
def c2StructB : AccountStructInfo :=
  ⟨str "StructB", str "m", str "b.rs", 1, 1, [],
   [⟨str "vault_b", str "Account",
     [⟨.Seeds [.StringLiteral (str "pool")] none, [], none⟩], true,
     some ⟨[.StringLiteral (str "pool")], .Auto, none, none, none⟩, none, ⟨1, 1, 1, 1⟩⟩],
   [str "Accounts"], str "pub", none, true⟩

/-- Counterexample to claim C2 as stated: the single emitted edge carries
the field names `vault_a`/`vault_b`, neither of which is the name of
either struct of the related pair. -/
theorem c2_counterexample :
    (analyzeRelationships [c2StructA, c2StructB]).map (fun e => (e.parent, e.child)) =
      [(str "vault_a", str "vault_b")] ∧
    str "vault_a" ≠ c2StructA.name ∧ str "vault_a" ≠ c2StructB.name ∧
    str "vault_b" ≠ c2StructA.name ∧ str "vault_b" ≠ c2StructB.name := by
  decide

/-- The edge emitted for the C2 scenario. -/
def c2Edge : PdaRelationship :=
  ⟨str "vault_a", str "vault_b", str "shared_seeds", [str "pool"]⟩

/-- Witness for the amended C2 at concrete inputs. -/
theorem c2_edge_endpoints_witness :
    (∃ f ∈ pdaFieldsOf [c2StructA, c2StructB], c2Edge.parent = f.name) ∧
    ∃ g ∈ pdaFieldsOf [c2StructA, c2StructB], c2Edge.child = g.name :=
  c2_edge_endpoints [c2StructA, c2StructB] c2Edge (by decide)

/-- Claim C3 (amended): the relationship analysis is the filter-map of the
edge builder over the ordered pairs `i < j` of PDA fields; for a pair with
resolved descriptors an edge is emitted exactly when the shared-seed list
is non-empty, the edge then carrying that list — which holds one textual
identity per matching ordered pair of components, duplicates preserved
(it is not deduplicated); and the list is non-empty exactly when some
component of the first list matches some component of the second under
the two equality rules embodied by `seedMatch`. -/
theorem c3_shared_seed_edges :
    (∀ ss : List AccountStructInfo,
      analyzeRelationships ss =
        (offDiagPairs (pdaFieldsOf ss)).filterMap (fun p => edgeOfPair p.1 p.2)) ∧
    (∀ (f g : AccountField) (i1 i2 : PdaInfo),
      f.pda_info = some i1 → g.pda_info = some i2 →
      (findSharedSeeds i1.seeds i2.seeds ≠ [] →
        edgeOfPair f g = some ⟨f.name, g.name, str "shared_seeds",
          findSharedSeeds i1.seeds i2.seeds⟩) ∧
      (findSharedSeeds i1.seeds i2.seeds = [] → edgeOfPair f g = none)) ∧
    (∀ s1 s2 : List SeedComponent,
      findSharedSeeds s1 s2 ≠ [] ↔
        ∃ a ∈ s1, ∃ b ∈ s2, (seedMatch a b).isSome = true) := by
  refine ⟨?_, ?_, ?_⟩
  · intro ss
    rw [analyzeRelationships]
    exact relLoop_eq_offDiag _
  · intro f g i1 i2 h1 h2
    constructor
    · intro hne
      simp [edgeOfPair, h1, h2, if_neg hne]
    · intro heq
      simp [edgeOfPair, h1, h2, heq]
  · intro s1 s2
    constructor
    · intro hne
      cases hl : findSharedSeeds s1 s2 with
      | nil => exact absurd hl hne
      | cons x rest =>
        have hx : x ∈ findSharedSeeds s1 s2 := by
          rw [hl]; exact List.mem_cons_self x rest
        obtain ⟨a, ha, b, hb, hm⟩ := (mem_findSharedSeeds s1 s2 x).mp hx
        exact ⟨a, ha, b, hb, by rw [hm]; rfl⟩
    · rintro ⟨a, ha, b, hb, hm⟩
      cases hsm : seedMatch a b with
      | none => rw [hsm] at hm; exact absurd hm (by simp)
      | some x =>
        exact List.ne_nil_of_mem ((mem_findSharedSeeds s1 s2 x).mpr ⟨a, ha, b, hb, hsm⟩)

/-- PDA field whose descriptor repeats the variable seed `x`. -/
def c3FieldA : AccountField :=
  ⟨str "counter_a", str "Account",
   [⟨.Seeds [.Variable (str "x") none, .Variable (str "x") none] none, [], none⟩], true,
   some ⟨[.Variable (str "x") none, .Variable (str "x") none], .Auto, none, none, none⟩,
   none, ⟨1, 1, 1, 1⟩⟩

/-- PDA field whose descriptor holds the single variable seed `x`. -/
def c3FieldB : AccountField :=
  ⟨str "counter_b", str "Account",
   [⟨.Seeds [.Variable (str "x") none] none, [], none⟩], true,
   some ⟨[.Variable (str "x") none], .Auto, none, none, none⟩,
   none, ⟨1, 1, 1, 1⟩⟩

/-- Struct wrapper around `c3FieldA`. -/
def c3StructA : AccountStructInfo :=
  ⟨str "CounterA", str "m", str "a.rs", 1, 1, [], [c3FieldA],
   [str "Accounts"], str "pub", none, true⟩

/-- Struct wrapper around `c3FieldB`. -/
def c3StructB : AccountStructInfo :=
  ⟨str "CounterB", str "m", str "b.rs", 1, 1, [], [c3FieldB],
   [str "Accounts"], str "pub", none, true⟩

/-- Counterexample to claim C3 as stated: the emitted edge's shared-seed
list is `["x", "x"]` — one entry per matching ordered pair of components —
which is not a deduplicated list. -/
theorem c3_counterexample :
    (analyzeRelationships [c3StructA, c3StructB]).map (fun e => e.shared_seeds) =
      [[str "x", str "x"]] ∧
    ¬ ([str "x", str "x"] : List Str).Nodup := by
  decide

/-- Witness for the amended C3 at concrete inputs. -/
theorem c3_shared_seed_edges_witness :
    edgeOfPair c3FieldA c3FieldB =
      some ⟨c3FieldA.name, c3FieldB.name, str "shared_seeds",
        findSharedSeeds [.Variable (str "x") none, .Variable (str "x") none]
          [.Variable (str "x") none]⟩ :=
  (c3_shared_seed_edges.2.1 c3FieldA c3FieldB
      ⟨[.Variable (str "x") none, .Variable (str "x") none], .Auto, none, none, none⟩
      ⟨[.Variable (str "x") none], .Auto, none, none, none⟩
      (by decide) (by decide)).1 (by decide)

/-- Occurrence count of a pair in the left-component-fixed pair map. -/
theorem count_pairMap {α : Type _} [DecidableEq α] (xs : List α) (x u v : α) :
    ((xs.map (fun y => (x, y))).count (u, v)) = if u = x then xs.count v else 0 := by
  induction xs with
  | nil => simp
  | cons a rest ih =>
    rw [List.map_cons, List.count_cons, ih, List.count_cons]
    by_cases hu : u = x
    · subst hu
      by_cases hv : v = a
      · subst hv; simp
      · have hne : ¬((u, v) = (u, a)) := by simp [hv]
        simp [hv, hne]
    · have hne : ¬((u, v) = (x, a)) := by simp [hu]
      simp [hu, hne]
      exact fun h => absurd h.symm hu

/-- In the off-diagonal pair list of a duplicate-free list, an unordered
pair of two distinct members occurs exactly once (as one of its two
orientations). -/
theorem offDiag_pair_count {α : Type _} [DecidableEq α] (l : List α) (hnd : l.Nodup)
    (a b : α) (ha : a ∈ l) (hb : b ∈ l) (hab : a ≠ b) :
    (offDiagPairs l).count (a, b) + (offDiagPairs l).count (b, a) = 1 := by
  induction l with
  | nil => simp at ha
  | cons x xs ih =>
    rw [List.nodup_cons] at hnd
    obtain ⟨hx, hxs⟩ := hnd
    have hz1 : ∀ u v : α, u ∉ xs → (offDiagPairs xs).count (u, v) = 0 :=
      fun u v hu => List.count_eq_zero.mpr
        (fun hmem => hu (mem_offDiagPairs (u, v) xs hmem).1)
    have hz2 : ∀ u v : α, v ∉ xs → (offDiagPairs xs).count (u, v) = 0 :=
      fun u v hv => List.count_eq_zero.mpr
        (fun hmem => hv (mem_offDiagPairs (u, v) xs hmem).2)
    simp only [offDiagPairs, List.count_append, count_pairMap]
    rcases List.mem_cons.mp ha with rfl | haxs
    · have hbxs : b ∈ xs := by
        rcases List.mem_cons.mp hb with h1 | h1
        · exact absurd h1.symm hab
        · exact h1
      rw [if_pos rfl, if_neg (fun h => hab h.symm),
        List.count_eq_one_of_mem hxs hbxs, hz1 a b hx, hz2 b a hx]
    · rcases List.mem_cons.mp hb with rfl | hbxs
      · rw [if_neg hab, if_pos rfl, List.count_eq_one_of_mem hxs haxs,
          hz2 a b hx, hz1 b a hx]
      · have hax : a ≠ x := fun h => hx (h ▸ haxs)
        have hbx : b ≠ x := fun h => hx (h ▸ hbxs)
        rw [if_neg hax, if_neg hbx]
        have := ih hxs haxs hbxs
        omega

/-- Claim C9: the relationship analysis visits each unordered pair of
distinct PDA fields exactly once — in the off-diagonal pair list of a
duplicate-free field list the two orientations of a pair occur once in
total, and the analysis is the per-pair filter-map over that list — and
the shared-seed computation is symmetric: swapping the two seed lists
yields the identical set of shared identities. -/
theorem c9_symmetric_once :
    (∀ l : List AccountField, l.Nodup → ∀ a b : AccountField,
      a ∈ l → b ∈ l → a ≠ b →
        (offDiagPairs l).count (a, b) + (offDiagPairs l).count (b, a) = 1) ∧
    (∀ l : List AccountField,
      relLoop l = (offDiagPairs l).filterMap (fun p => edgeOfPair p.1 p.2)) ∧
    (∀ (s1 s2 : List SeedComponent) (x : Str),
      x ∈ findSharedSeeds s1 s2 ↔ x ∈ findSharedSeeds s2 s1) := by
  refine ⟨?_, relLoop_eq_offDiag, ?_⟩
  · intro l hnd a b ha hb hab
    exact offDiag_pair_count l hnd a b ha hb hab
  · intro s1 s2 x
    rw [mem_findSharedSeeds, mem_findSharedSeeds]
    constructor
    · rintro ⟨a, ha, b, hb, hm⟩
      exact ⟨b, hb, a, ha, by rw [← seedMatch_comm a b]; exact hm⟩
    · rintro ⟨b, hb, a, ha, hm⟩
      exact ⟨a, ha, b, hb, by rw [seedMatch_comm a b]; exact hm⟩

/-- First field of the C9 witness pair. -/
def c9F1 : AccountField :=
  ⟨str "pda_one", str "Account",
   [⟨.Seeds [.StringLiteral (str "pool")] none, [], none⟩], true,
   some ⟨[.StringLiteral (str "pool")], .Auto, none, none, none⟩, none, ⟨1, 1, 1, 1⟩⟩

/-- Second field of the C9 witness pair. -/
def c9F2 : AccountField :=
  ⟨str "pda_two", str "Account",
   [⟨.Seeds [.StringLiteral (str "pool")] none, [], none⟩], true,
   some ⟨[.StringLiteral (str "pool")], .Auto, none, none, none⟩, none, ⟨1, 1, 1, 1⟩⟩

/-- Witness for C9 at concrete inputs. -/
theorem c9_symmetric_once_witness :
    (offDiagPairs [c9F1, c9F2]).count (c9F1, c9F2) +
      (offDiagPairs [c9F1, c9F2]).count (c9F2, c9F1) = 1 :=
  c9_symmetric_once.1 [c9F1, c9F2] (by decide) c9F1 c9F2 (by decide) (by decide)
    (by decide)

/-- Whether the payload's seed list holds the degenerate two-character
piece (a `b` followed by a lone quote) on which the seed slicer panics. -/
def hasDegenerateSeed (t : Str) : Bool :=
  match seedsContent? t with
  | none => false
  | some c => (c.splitOn ',').any (fun p => trim p == str "b\"")

/-- The seed classifier aborts exactly on the degenerate two-character
byte-string opener. -/
theorem classifySeed_eq_none_iff (q : Str) :
    classifySeed q = none ↔ q = str "b\"" := by
  constructor
  · intro h
    unfold classifySeed at h
    by_cases h1 : ((str "b\"").isPrefixOf q && (str "\"").isSuffixOf q) = true
    · rw [if_pos h1] at h
      by_cases h2 : 3 ≤ q.length
      · rw [if_pos h2] at h
        exact absurd h (by simp)
      · rw [Bool.and_eq_true] at h1
        obtain ⟨hpre, _⟩ := h1
        obtain ⟨t, ht⟩ := List.isPrefixOf_iff_prefix.mp hpre
        have hlen : q.length = 2 + t.length := by
          rw [← ht, List.length_append]
          rfl
        have htn : t = [] := List.length_eq_zero.mp (by omega)
        subst htn
        exact ht.symm.trans (List.append_nil _)
    · rw [if_neg h1] at h
      split at h <;> exact absurd h (by simp)
  · intro h
    subst h
    decide

/-- When no piece is degenerate, the piece loop classifies every piece. -/
theorem classifyPieces_total (ps : List Str)
    (h : ∀ p ∈ ps, classifySeed (trim p) ≠ none) :
    ∃ l, classifyPieces ps = some l := by
  induction ps with
  | nil => exact ⟨[], rfl⟩
  | cons p rest ih =>
    cases hcp : classifySeed (trim p) with
    | none => exact absurd hcp (h p (List.mem_cons_self p rest))
    | some s =>
      obtain ⟨l, hl⟩ := ih (fun q hq => h q (List.mem_cons_of_mem p hq))
      exact ⟨s :: l, by simp [classifyPieces, hcp, hl]⟩

/-- Without a degenerate piece, `parse_seeds` returns normally. -/
theorem parseSeeds_total (t : Str) (hdeg : hasDegenerateSeed t = false) :
    ∃ sds, parseSeeds t = some sds := by
  unfold hasDegenerateSeed at hdeg
  cases hc : seedsContent? t with
  | none => exact ⟨[], by simp [parseSeeds, hc]⟩
  | some c =>
    rw [hc] at hdeg
    have hall := List.any_eq_false.mp hdeg
    simp only [parseSeeds, hc]
    apply classifyPieces_total
    intro p hp
    intro hnone
    have := (classifySeed_eq_none_iff (trim p)).mp hnone
    have hbeq := hall p hp
    rw [this] at hbeq
    simp at hbeq

/-- Claim C6 (amended): for every payload whose seed list holds no
degenerate two-character byte-string opener, the constraint parser
returns normally (it never reports an error — the panic on that one
degenerate piece is the only abnormal exit); a payload containing none of
the recognized keywords yields exactly zero constraint records; and a
partially-specified `init` payload (the keyword with neither `payer = `
nor `space = ` extractable) yields an `Init` constraint with the empty
payer and no space rather than a failure. -/
theorem c6_parser_total :
    ∀ t : Str,
      (hasDegenerateSeed t = false → (parseConstraintTokens t).isSome = true) ∧
      (containsSub t (str "init") = false → containsSub t (str "mut") = false →
        containsSub t (str "seeds = ") = false →
        containsSub t (str "associated_token") = false →
        parseConstraintTokens t = some []) ∧
      (hasDegenerateSeed t = false → containsSub t (str "init") = true →
        extractKeyValue t (str "payer = ") = none →
        extractKeyValue t (str "space = ") = none →
        ∃ l, parseConstraintTokens t = some
          (⟨.Init [] none none, [], none⟩ :: l)) := by
  intro t
  refine ⟨?_, ?_, ?_⟩
  · intro hdeg
    by_cases hs : containsSub t (str "seeds = ") = true
    · obtain ⟨sds, hsds⟩ := parseSeeds_total t hdeg
      simp [parseConstraintTokens, hs, hsds]
    · rw [Bool.not_eq_true] at hs
      simp [parseConstraintTokens, hs]
  · intro h1 h2 h3 h4
    simp [parseConstraintTokens, h1, h2, h3, h4]
  · intro hdeg hinit hp hsp
    have hic : initConstraint t = ⟨.Init [] none none, [], none⟩ := by
      simp [initConstraint, hp, hsp]
    by_cases hs : containsSub t (str "seeds = ") = true
    · obtain ⟨sds, hsds⟩ := parseSeeds_total t hdeg
      refine ⟨(if containsSub t (str "mut") && !containsSub t (str "mut,") then
          [mutConstraint] else []) ++
        [⟨.Seeds sds (parseBump t), [], none⟩] ++
        (if containsSub t (str "associated_token") then [assocTokenConstraint t]
          else []), ?_⟩
      simp [parseConstraintTokens, hinit, hs, hsds, hic]
    · rw [Bool.not_eq_true] at hs
      refine ⟨(if containsSub t (str "mut") && !containsSub t (str "mut,") then
          [mutConstraint] else []) ++
        (if containsSub t (str "associated_token") then [assocTokenConstraint t]
          else []), ?_⟩
      simp [parseConstraintTokens, hinit, hs, hic]

/-- Counterexample to claim C6 as stated: the payload `seeds = [b"]` makes
the seed slicer panic (modelled as `none`), so the parser does not return
a best-effort constraint for this malformed payload. -/
theorem c6_counterexample : parseConstraintTokens (str "seeds = [b\"]") = none := by
  decide

/-- Witness for the amended C6 at concrete payloads. -/
theorem c6_parser_total_witness :
    (parseConstraintTokens (str "close = authority")).isSome = true ∧
    parseConstraintTokens (str "owner = prog") = some [] ∧
    ∃ l, parseConstraintTokens (str "init") = some
      (⟨.Init [] none none, [], none⟩ :: l) :=
  ⟨(c6_parser_total (str "close = authority")).1 (by decide),
   (c6_parser_total (str "owner = prog")).2.1 (by decide) (by decide) (by decide)
     (by decide),
   (c6_parser_total (str "init")).2.2 (by decide) (by decide) (by decide) (by decide)⟩

/-- Classification of one trimmed seed piece as the specification words it:
a piece passing the byte-string test becomes a `StringLiteral` with the
wrapper stripped, a piece containing the little-endian byte-conversion
call becomes a `Variable` with that transformation recorded, and any
other piece becomes a `Variable` with no transformation.  This total
spec-side function differs from the source's `classifySeed` only on the
degenerate two-character piece, where the source panics. -/
def specClassifySeed (q : Str) : SeedComponent :=
  if (str "b\"").isPrefixOf q && (str "\"").isSuffixOf q then
    .StringLiteral ((q.drop 2).dropLast)
  else if containsSub q (str ".to_le_bytes()") then
    .Variable ((q.splitOn '.').headD q) (some (str ".to_le_bytes().as_ref()"))
  else
    .Variable q none

/-- Away from the degenerate piece, the source classifier agrees with the
spec-side classification. -/
theorem classifySeed_eq_spec (q : Str) (h : q ≠ str "b\"") :
    classifySeed q = some (specClassifySeed q) := by
  have hne : classifySeed q ≠ none := fun hn => h ((classifySeed_eq_none_iff q).mp hn)
  unfold classifySeed at hne ⊢
  unfold specClassifySeed
  by_cases h1 : ((str "b\"").isPrefixOf q && (str "\"").isSuffixOf q) = true
  · rw [if_pos h1] at hne ⊢
    rw [if_pos h1]
    by_cases h2 : 3 ≤ q.length
    · rw [if_pos h2]
    · rw [if_neg h2] at hne
      exact absurd rfl hne
  · rw [if_neg h1]
    rw [if_neg h1]
    by_cases h3 : containsSub q (str ".to_le_bytes()") = true
    · rw [if_pos h3, if_pos h3]
    · rw [if_neg h3, if_neg h3]

/-- Without degenerate pieces, the piece loop computes the spec-side
classification of every trimmed piece, in order. -/
theorem classifyPieces_eq_spec (ps : List Str)
    (h : ∀ p ∈ ps, trim p ≠ str "b\"") :
    classifyPieces ps = some (ps.map (fun p => specClassifySeed (trim p))) := by
  induction ps with
  | nil => rfl
  | cons p rest ih =>
    simp [classifyPieces, classifySeed_eq_spec (trim p) (h p (List.mem_cons_self p rest)),
      ih (fun q hq => h q (List.mem_cons_of_mem p hq))]

/-- Claim C8 (amended): when a payload contains a bracketed seeds list, the
bracketed content is split on commas and each trimmed piece — except the
degenerate two-character piece, on which the slicer panics — is
classified as the spec states: byte-string test passed → `StringLiteral`
without the wrapper; else containing `.to_le_bytes()` → `Variable` with
the transformation `.to_le_bytes().as_ref()` recorded; otherwise →
`Variable` with no transformation. -/
theorem c8_seed_classification :
    (∀ t c, seedsContent? t = some c →
      (∀ p ∈ c.splitOn ',', trim p ≠ str "b\"") →
      parseSeeds t = some ((c.splitOn ',').map (fun p => specClassifySeed (trim p)))) ∧
    (∀ q : Str,
      (((str "b\"").isPrefixOf q && (str "\"").isSuffixOf q) = true →
        specClassifySeed q = .StringLiteral ((q.drop 2).dropLast)) ∧
      (((str "b\"").isPrefixOf q && (str "\"").isSuffixOf q) = false →
        containsSub q (str ".to_le_bytes()") = true →
        specClassifySeed q = .Variable ((q.splitOn '.').headD q)
          (some (str ".to_le_bytes().as_ref()"))) ∧
      (((str "b\"").isPrefixOf q && (str "\"").isSuffixOf q) = false →
        containsSub q (str ".to_le_bytes()") = false →
        specClassifySeed q = .Variable q none)) := by
  constructor
  · intro t c hc hnd
    simp only [parseSeeds, hc]
    exact classifyPieces_eq_spec (c.splitOn ',') hnd
  · intro q
    refine ⟨?_, ?_, ?_⟩
    · intro h1
      simp [specClassifySeed, h1]
    · intro h1 h3
      simp [specClassifySeed, h1, h3]
    · intro h1 h3
      simp [specClassifySeed, h1, h3]

/-- Counterexample to claim C8 as stated: on the degenerate piece `b"` the
seed parser panics (modelled as `none`) instead of classifying the piece
into any of the claim's categories. -/
theorem c8_counterexample :
    parseSeeds (str "seeds = [b\"]") = none ∧
    parseSeeds (str "seeds = [b\"]") ≠ some [.StringLiteral []] ∧
    parseSeeds (str "seeds = [b\"]") ≠ some [.Variable (str "b\"") none] := by
  decide

/-- Payload of the C8 witness. -/
def c8WPayload : Str := str "seeds = [b\"global\", user, amount.to_le_bytes()], bump"

/-- Witness for the amended C8: a three-piece seed list classified into a
stripped string literal, a plain variable and a transformed variable. -/
theorem c8_seed_classification_witness :
    parseSeeds c8WPayload =
      some [.StringLiteral (str "global"), .Variable (str "user") none,
        .Variable (str "amount") (some (str ".to_le_bytes().as_ref()"))] := by
  have h := c8_seed_classification.1 c8WPayload
    (str "b\"global\", user, amount.to_le_bytes()") (by decide) (by decide)
  exact h.trans (by decide)

/-- Claim C10 (amended): `source_finder`'s symbol slicing clamps the byte
range to the file length and returns the empty slice (with zero line
bounds) whenever the clamped range degenerates; `symbol_finder`'s
`extract_symbol_content`, by contrast, does not clamp — it returns an
error whenever the start reaches the file length, the end exceeds it, or
the start exceeds the end, and succeeds (with an empty slice only in the
in-bounds `start = end` case) otherwise. -/
theorem c10_slice_bounds :
    (∀ (s : Str) (a b : Nat),
      extractSymbolSource s (a, b) =
        extractSymbolSource s (min a s.length, min b s.length)) ∧
    (∀ (s : Str) (a b : Nat), min b s.length ≤ min a s.length →
      extractSymbolSource s (a, b) = some ([], 0, 0)) ∧
    (∀ (s : Str) (a b : Nat), s.length ≤ a ∨ s.length < b ∨ b < a →
      extractSymbolContent s (a, b) =
        .error (str "无效的文本范围: " ++ natStr a ++ str ".." ++ natStr b)) ∧
    (∀ (s : Str) (a b : Nat), a < s.length → b ≤ s.length → a ≤ b →
      extractSymbolContent s (a, b) =
        .ok ((s.drop a).take (b - a), extractSimpleDocs s a)) := by
  refine ⟨?_, ?_, ?_, ?_⟩
  · intro s a b
    unfold extractSymbolSource
    have h1 : min (min a s.length) s.length = min a s.length := by omega
    have h2 : min (min b s.length) s.length = min b s.length := by omega
    rw [h1, h2]
  · intro s a b h
    simp only [extractSymbolSource]
    rw [if_pos h]
  · intro s a b h
    simp only [extractSymbolContent]
    rw [if_pos h]
  · intro s a b h1 h2 h3
    simp only [extractSymbolContent]
    rw [if_neg (by omega)]

/-- Counterexample to claim C10 as stated: `extract_symbol_content` on the
two-character file `ab` with byte range `5..7` fails with an error
instead of clamping the range and returning an empty slice. -/
theorem c10_counterexample :
    extractSymbolContent (str "ab") (5, 7) =
      .error (str "无效的文本范围: 5..7") ∧
    ∀ out : Str × Option Str, extractSymbolContent (str "ab") (5, 7) ≠ .ok out := by
  constructor
  · rfl
  · intro out h
    have he : extractSymbolContent (str "ab") (5, 7) =
        .error (str "无效的文本范围: 5..7") := rfl
    rw [he] at h
    exact Except.noConfusion h

/-- Witness for the amended C10 at concrete inputs. -/
theorem c10_slice_bounds_witness :
    extractSymbolSource (str "hello") (9, 4) =
      extractSymbolSource (str "hello") (min 9 (str "hello").length, min 4 (str "hello").length) ∧
    extractSymbolSource (str "hello") (9, 12) = some ([], 0, 0) ∧
    extractSymbolContent (str "hello") (7, 9) =
      .error (str "无效的文本范围: " ++ natStr 7 ++ str ".." ++ natStr 9) ∧
    extractSymbolContent (str "hello") (1, 3) =
      .ok (((str "hello").drop 1).take (3 - 1), extractSimpleDocs (str "hello") 1) :=
  ⟨c10_slice_bounds.1 (str "hello") 9 4,
   c10_slice_bounds.2.1 (str "hello") 9 12 (by decide),
   c10_slice_bounds.2.2.1 (str "hello") 7 9 (by decide),
   c10_slice_bounds.2.2.2 (str "hello") 1 3 (by decide) (by decide) (by decide)⟩

end RustGraph
